import Mathlib

set_option maxHeartbeats 1000000

/-
Shallow embedding of `pyrtl/wire.py`: the bit-vector expression algebra and
netlist-construction layer of PyRTL.  Handles (`WireVector` and its role and
signedness variants) are modelled as `Wire` records; the owning block is a
`Block` record holding the emitted nets, the per-register staged next-value
state, and the calls handed to the external conditional resolver.  Python
exceptions become an error enumeration threaded through every operation; the
block state is threaded even on error, since a Python exception leaves the
already-mutated block behind.
-/

/-- Error kinds raised by the construction layer, one per distinct raise site
of `wire.py` that the development reaches, plus the Python built-in errors
that flat-list indexing and slicing can raise. -/
inductive PyErr
  | nonPositiveBitwidth
  | boolConversion
  | shrink
  | constStringBitwidth
  | constFormat
  | constNegative
  | constNegativeBitwidth
  | constOverflow
  | reStage
  | indexError
  | valueError
  deriving DecidableEq, Repr

/-- A bit-vector handle.  `wid` is the identity (allocation order in the
block), `bw` the resolved bitwidth, `signed` whether the handle belongs to one
of the `Signed*` classes (whose default extension rule is sign extension), and
`cval` the stored constant value for `Const` handles. -/
structure Wire where
  wid : Nat
  bw : Nat
  signed : Bool
  cval : Option Nat
  deriving DecidableEq, Repr

/-- One graph node (`core.LogicNet`): an operation character, the optional
immediate parameter (the selected-index tuple of a select node), and the
ordered argument and destination handles. -/
structure LogicNet where
  op : Char
  op_param : Option (List Nat)
  args : List Wire
  dests : List Wire
  deriving DecidableEq, Repr

/-- The owning block: a fresh-name counter, the emitted nets in order, the
`reg_in` staged-value state of every register (absent entry = `None`), and
the record of calls made to `conditional.ConditionalUpdate._register_set`
(an external collaborator: those calls emit no net here). -/
structure Block where
  nextId : Nat
  nets : List LogicNet
  regIn : List (Nat × Wire)
  condCalls : List (Wire × Wire)
  deriving DecidableEq, Repr

/-- An empty block, the state in which circuit construction starts. -/
def Block.empty : Block := ⟨0, [], [], []⟩

/-- Handle allocation, `WireVector.__init__`: a non-positive bitwidth raises;
otherwise a fresh handle of that width is recorded in the block. -/
def mkWireVector (bitwidth : Int) (signed : Bool) (st : Block) :
    Except PyErr Wire × Block :=
  if bitwidth ≤ 0 then (.error .nonPositiveBitwidth, st)
  else (.ok ⟨st.nextId, bitwidth.toNat, signed, none⟩,
        { st with nextId := st.nextId + 1 })

/-- Python `len(bin(n)) - 2` for a natural number: the binary digit count,
which is 1 for `0` (Python prints `0` as `0b0`). -/
def pyBinLenNat (n : Nat) : Nat := if n = 0 then 1 else Nat.size n

/-- Python `len(bin(n)) - 2` for an integer: a negative number additionally
counts its minus sign. -/
def pyBinLen (n : Int) : Int :=
  if n < 0 then (pyBinLenNat (-n).toNat : Int) + 1 else (pyBinLenNat n.toNat : Int)

/-- The validation tail of `Const.__init__`, shared by the integer and the
string entry: value must be non-negative, bitwidth non-negative, the value
must fit (`num >> bitwidth == 0`), and then the base `WireVector.__init__`
allocates the handle (rejecting a non-positive width) and the value is
stored. -/
def constCore (num : Int) (bitwidth : Int) (signed : Bool) (st : Block) :
    Except PyErr Wire × Block :=
  if num < 0 then (.error .constNegative, st)
  else if bitwidth < 0 then (.error .constNegativeBitwidth, st)
  else if num.toNat >>> bitwidth.toNat ≠ 0 then (.error .constOverflow, st)
  else
    match mkWireVector bitwidth signed st with
    | (.error e, st1) => (.error e, st1)
    | (.ok w, st1) => (.ok { w with cval := some num.toNat }, st1)

/-- The apostrophe character separating width and digits in a verilog-style
constant literal. -/
def quoteChar : Char := Char.ofNat 39

/-- Python `str.split(sep)` for a one-character separator, on the character
list of the string. -/
def splitOnChar (c : Char) : List Char → List (List Char)
  | [] => [[]]
  | x :: rest =>
      let r := splitOnChar c rest
      if x = c then [] :: r
      else
        match r with
        | h :: t => (x :: h) :: t
        | [] => [[x]]

/-- Value of one digit character in bases up to 16. -/
def digitVal (c : Char) : Option Nat :=
  if c.isDigit then some (c.toNat - 48)
  else if ('a' ≤ c ∧ c ≤ 'f') then some (c.toNat - 87)
  else if ('A' ≤ c ∧ c ≤ 'F') then some (c.toNat - 55)
  else none

/-- Accumulating digit parser: every character must be a digit of the base. -/
def parseDigitsAux (base : Nat) (acc : Nat) : List Char → Option Nat
  | [] => some acc
  | c :: cs =>
      match digitVal c with
      | some d => if d < base then parseDigitsAux base (acc * base + d) cs else none
      | none => none

/-- Digit-string parser: non-empty, all digits of the base. -/
def parseDigits (base : Nat) : List Char → Option Nat
  | [] => none
  | cs => parseDigitsAux base 0 cs

/-- Python `int(s)` (base 10): an optional sign followed by decimal digits. -/
def pyIntDec : List Char → Option Int
  | '-' :: cs => (parseDigits 10 cs).map (fun n => -(n : Int))
  | '+' :: cs => (parseDigits 10 cs).map (fun n => (n : Int))
  | cs => (parseDigits 10 cs).map (fun n => (n : Int))

/-- Python `int(s, 0)`: a base prefix `0b`/`0o`/`0x` selects the base; a bare
decimal may not have a leading zero unless the value is zero. -/
def pyIntBase0 (cs : List Char) : Option Int :=
  match cs with
  | '0' :: 'b' :: ds => (parseDigits 2 ds).map (fun n => (n : Int))
  | '0' :: 'B' :: ds => (parseDigits 2 ds).map (fun n => (n : Int))
  | '0' :: 'o' :: ds => (parseDigits 8 ds).map (fun n => (n : Int))
  | '0' :: 'O' :: ds => (parseDigits 8 ds).map (fun n => (n : Int))
  | '0' :: 'x' :: ds => (parseDigits 16 ds).map (fun n => (n : Int))
  | '0' :: 'X' :: ds => (parseDigits 16 ds).map (fun n => (n : Int))
  | ds =>
      if ds ≠ [] ∧ ds.all (fun c => c = '0') then some 0
      else
        match ds with
        | '0' :: _ => none
        | _ => (parseDigits 10 ds).map (fun n => (n : Int))

/-- The value argument of `Const.__init__`: a Python int or a Python string
(the improper-type branch is unrepresentable in the typed embedding). -/
inductive ConstVal
  | int (i : Int)
  | str (s : String)

/-- Constant construction, `Const.__init__`: an integer infers its bitwidth
(`len(bin(num)) - 2`) when none is given; a string must come without an
explicit bitwidth and is split on the apostrophe into a decimal width and a
base-prefixed digit string (`int(parts[1].prepend(zero), 0)`); both feed the
shared validation tail `constCore`. -/
def constInit (val : ConstVal) (bitwidth? : Option Int) (signed : Bool) (st : Block) :
    Except PyErr Wire × Block :=
  match val with
  | .int num => constCore num (bitwidth?.getD (pyBinLen num)) signed st
  | .str s =>
      match bitwidth? with
      | some _ => (.error .constStringBitwidth, st)
      | none =>
          match splitOnChar quoteChar s.data with
          | [p0, p1] =>
              match pyIntDec p0, pyIntBase0 ('0' :: p1) with
              | some bw, some num => constCore num bw signed st
              | _, _ => (.error .constFormat, st)
          | _ => (.error .constFormat, st)

/-- An index expression handed to `WireVector.__getitem__`: a Python int or a
Python slice (each slice field optional; a `none` step means 1). -/
inductive PyIndex
  | int (i : Int)
  | slice (start? stop? step? : Option Int)

/-- Python flat-list integer indexing: a negative index counts from the end,
an index out of range raises `IndexError`. -/
def pyListIndex {α : Type} (xs : List α) (i : Int) : Except PyErr α :=
  let j := if i < 0 then i + xs.length else i
  if 0 ≤ j ∧ j < (xs.length : Int) then
    match xs.get? j.toNat with
    | some v => .ok v
    | none => .error .indexError
  else .error .indexError

/-- The absolute positions a Python slice selects from a sequence of the given
length: start and stop are clamped exactly as CPython clamps them, then the
positions are enumerated with the (non-zero) step. -/
def sliceIdx (len : Nat) (start? stop? : Option Int) (step : Int) : List Nat :=
  let L : Int := len
  let start :=
    match start? with
    | none => if step < 0 then L - 1 else 0
    | some s =>
        let s := if s < 0 then s + L else s
        if s < 0 then (if step < 0 then -1 else 0)
        else if L ≤ s then (if step < 0 then L - 1 else L)
        else s
  let stop :=
    match stop? with
    | none => if step < 0 then -1 else L
    | some e =>
        let e := if e < 0 then e + L else e
        if e < 0 then (if step < 0 then -1 else 0)
        else if L ≤ e then (if step < 0 then L - 1 else L)
        else e
  let count : Nat :=
    if 0 < step then
      if stop ≤ start then 0 else (stop - start - 1).toNat / step.toNat + 1
    else
      if start ≤ stop then 0 else (start - stop - 1).toNat / (-step).toNat + 1
  (List.range count).map (fun k => (start + k * step).toNat)

/-- Python flat-list slicing: gather the elements at the selected positions
(all of which CPython guarantees to be in range). -/
def pyListSlice {α : Type} (xs : List α) (start? stop? : Option Int) (step : Int) :
    List α :=
  (sliceIdx xs.length start? stop? step).filterMap (fun i => xs.get? i)

/-- Applying an index expression to a flat Python list: an int selects one
element (or raises `IndexError`), a slice with step 0 raises `ValueError`,
any other slice selects a sublist. -/
def pySelect {α : Type} (xs : List α) (idx : PyIndex) : Except PyErr (List α) :=
  match idx with
  | .int i =>
      match pyListIndex xs i with
      | .ok v => .ok [v]
      | .error e => .error e
  | .slice a b c =>
      let step := c.getD 1
      if step = 0 then .error .valueError
      else .ok (pyListSlice xs a b step)

/-- Bit selection, `WireVector.__getitem__`: the index expression is applied
to the flat list `range(bitwidth)` of bit positions, a fresh handle of width
the number of selected positions is allocated (the base constructor rejects
width 0), and one select net carrying the index tuple is emitted. -/
def getitem (h : Wire) (idx : PyIndex) (st : Block) : Except PyErr Wire × Block :=
  match pySelect (List.range h.bw) idx with
  | .error e => (.error e, st)
  | .ok sel =>
      match mkWireVector (sel.length : Int) false st with
      | (.error e, st1) => (.error e, st1)
      | (.ok outwire, st1) =>
          (.ok outwire,
           { st1 with nets := st1.nets ++ [⟨'s', some sel, [h], [outwire]⟩] })

/-- Modelled from the spec: the coercion helper's `concat` (spec, part 4.1),
whose code (`helperfuncs.py`) is not part of the sources.  It returns one
fresh handle whose bit layout places the first argument in the
most-significant position and whose width is the sum of the input widths,
emitted as one concatenation node. -/
def concatW (hi lo : Wire) (st : Block) : Wire × Block :=
  let res : Wire := ⟨st.nextId, hi.bw + lo.bw, false, none⟩
  (res, { st with nextId := st.nextId + 1,
                  nets := st.nets ++ [⟨'c', none, [hi, lo], [res]⟩] })

/-- Widening core, `WireVector._extend_with_bit`: at the handle's own width
the very same handle is returned; a smaller target raises the shrink error;
otherwise the extension bit is replicated `target - width` times through one
select net (index tuple all zeroes) and concatenated in front of the
handle. -/
def extend_with_bit (h : Wire) (bitwidth : Nat) (extbit : Wire) (st : Block) :
    Except PyErr Wire × Block :=
  let numext : Int := (bitwidth : Int) - (h.bw : Int)
  if numext = 0 then (.ok h, st)
  else if numext < 0 then (.error .shrink, st)
  else
    match mkWireVector numext false st with
    | (.error e, st1) => (.error e, st1)
    | (.ok extvector, st1) =>
        let st2 := { st1 with
          nets := st1.nets ++
            [⟨'s', some (List.replicate numext.toNat 0), [extbit], [extvector]⟩] }
        let p := concatW extvector h st2
        (.ok p.1, p.2)

/-- Zero extension, `WireVector.zero_extended`: the extension bit is a fresh
one-bit constant 0 handle. -/
def zero_extended (h : Wire) (bitwidth : Nat) (st : Block) :
    Except PyErr Wire × Block :=
  match constInit (.int 0) (some 1) false st with
  | (.error e, st1) => (.error e, st1)
  | (.ok c, st1) => extend_with_bit h bitwidth c st1

/-- Sign extension, `WireVector.sign_extended`: the extension bit is the
handle's own most significant bit, `self[-1]`, materialised first (emitting
its select net) and only then handed to the widening core. -/
def sign_extended (h : Wire) (bitwidth : Nat) (st : Block) :
    Except PyErr Wire × Block :=
  match getitem h (.int (-1)) st with
  | (.error e, st1) => (.error e, st1)
  | (.ok msb, st1) => extend_with_bit h bitwidth msb st1

/-- Default extension rule, `WireVector.extended`: the base classes zero
extend, the `Signed*` subclasses override it with sign extension; the
subclass dispatch is collapsed into the handle's signedness flag. -/
def extended (h : Wire) (bitwidth : Nat) (st : Block) : Except PyErr Wire × Block :=
  if h.signed then sign_extended h bitwidth st else zero_extended h bitwidth st

/-- Result-length adjustment of `WireVector.logicop` on the equalized width:
add and subtract need the extra carry bit, multiply needs twice the bits,
the comparisons produce one bit, everything else keeps the width. -/
def resLen (op : Char) (w : Nat) : Nat :=
  if op = '+' ∨ op = '-' then w + 1
  else if op = '*' then w * 2
  else if op = '<' ∨ op = '>' ∨ op = '=' then 1
  else w

/-- The emission tail of `WireVector.logicop`, after the operands have been
equalized: allocate the result handle of the adjusted length and emit one
net with both operands as inputs. -/
def logicopEmit (a2 b2 : Wire) (op : Char) (st : Block) :
    Except PyErr Wire × Block :=
  match mkWireVector ((resLen op a2.bw : Nat) : Int) false st with
  | (.error e, st2) => (.error e, st2)
  | (.ok s, st2) =>
      (.ok s, { st2 with nets := st2.nets ++ [⟨op, none, [a2, b2], [s]⟩] })

/-- Binary operator emission, `WireVector.logicop`: the second operand of an
expression is already a handle here (coercing an existing handle with no
target width is the identity, spec part 4.1); the shorter operand is widened
to the longer with its own default extension rule, then the result handle is
allocated and the net emitted by `logicopEmit`. -/
def logicop (a : Wire) (b : Wire) (op : Char) (st : Block) :
    Except PyErr Wire × Block :=
  if a.bw < b.bw then
    match extended a b.bw st with
    | (.error e, st1) => (.error e, st1)
    | (.ok a2, st1) => logicopEmit a2 b op st1
  else if b.bw < a.bw then
    match extended b a.bw st with
    | (.error e, st1) => (.error e, st1)
    | (.ok b2, st1) => logicopEmit a b2 op st1
  else logicopEmit a b op st

/-- Truth-value conversion, `WireVector.__bool__` (and `__nonzero__`): always
raises, whatever the handle and the block state. -/
def wvBool (_h : Wire) (st : Block) : Except PyErr Bool × Block :=
  (.error .boolConversion, st)

/-- Staging a register's next value, the `Register.next` property setter, for
a right-hand side built by `<<=` (so already a `_NextSetter` carrying the
coerced staged handle).  A previously recorded `reg_in` raises the re-stage
error; outside a conditional scope (`underCondition`, the answer of the
external resolver's query) the staged handle is recorded as `reg_in` and one
clocked-update net is emitted; inside a conditional scope nothing is
recorded or emitted here and the pair is handed to the resolver's
registration entry point. -/
def registerNextSet (underCondition : Bool) (r : Wire) (rhs : Wire) (st : Block) :
    Except PyErr Unit × Block :=
  match st.regIn.lookup r.wid with
  | some _ => (.error .reStage, st)
  | none =>
      if !underCondition then
        (.ok (), { st with
          regIn := (r.wid, rhs) :: st.regIn,
          nets := st.nets ++ [⟨'r', none, [rhs], [r]⟩] })
      else
        (.ok (), { st with condCalls := st.condCalls ++ [(r, rhs)] })

/-- Value of a handle under an environment: a constant carries its own value,
any other handle reads the environment at its identity. -/
def wireVal (env : Nat → Nat) (w : Wire) : Nat :=
  match w.cval with
  | some v => v
  | none => env w.wid

/-- Point update of an environment. -/
def updEnv (env : Nat → Nat) (i v : Nat) : Nat → Nat :=
  fun j => if j = i then v else env j

/-- The number whose bit `k` is bit `sel[k]` of `v` (select-node semantics:
the index tuple lists source bit positions, least significant first). -/
def selBits (v : Nat) : List Nat → Nat
  | [] => 0
  | i :: rest => (v >>> i) % 2 + 2 * selBits v rest

/-- Modelled from the spec: evaluation of one net (spec parts 3, 4.1 and
4.4); simulation is not part of the sources, so only the node kinds the
stated examples need are given meaning: select gathers source bits by the
index tuple, concatenation places its first argument above the second,
copy forwards its argument. -/
def netEval (env : Nat → Nat) (n : LogicNet) : Nat → Nat :=
  match n with
  | ⟨'s', some sel, [a], [d]⟩ => updEnv env d.wid (selBits (wireVal env a) sel)
  | ⟨'c', none, [hi, lo], [d]⟩ =>
      updEnv env d.wid (wireVal env hi * 2 ^ lo.bw + wireVal env lo)
  | ⟨'w', none, [a], [d]⟩ => updEnv env d.wid (wireVal env a)
  | _ => env

/-- Evaluation of a net list in emission order. -/
def evalNets (nets : List LogicNet) (env : Nat → Nat) : Nat → Nat :=
  nets.foldl netEval env

theorem const_zero_one (st : Block) :
    constInit (.int 0) (some 1) false st =
      (.ok ⟨st.nextId, 1, false, some 0⟩, { st with nextId := st.nextId + 1 }) := rfl

theorem pyListIndex_range_neg_one (w : Nat) (h1 : 1 ≤ w) :
    pyListIndex (List.range w) (-1) = .ok (w - 1) := by
  unfold pyListIndex
  simp only [List.length_range]
  rw [if_pos (by norm_num : (-1:Int) < 0)]
  rw [if_pos (by constructor <;> omega : (0:Int) ≤ -1 + w ∧ -1 + (w:Int) < w)]
  have ht : ((-1 : Int) + w).toNat = w - 1 := by omega
  rw [ht, List.get?_range (by omega : w - 1 < w)]

theorem pySelect_neg_one (w : Nat) (h1 : 1 ≤ w) :
    pySelect (List.range w) (PyIndex.int (-1)) = .ok [w - 1] := by
  simp only [pySelect]
  rw [pyListIndex_range_neg_one w h1]

theorem getitem_neg_one (h : Wire) (st : Block) (h1 : 1 ≤ h.bw) :
    getitem h (.int (-1)) st =
      (.ok ⟨st.nextId, 1, false, none⟩,
       { st with nextId := st.nextId + 1,
                 nets := st.nets ++ [⟨'s', some [h.bw - 1], [h], [⟨st.nextId, 1, false, none⟩]⟩] }) := by
  unfold getitem
  rw [pySelect_neg_one h.bw h1]
  rfl

theorem extend_with_bit_same (h : Wire) (e : Wire) (st : Block) :
    extend_with_bit h h.bw e st = (.ok h, st) := by
  unfold extend_with_bit
  simp

theorem extend_with_bit_shrink (h : Wire) (e : Wire) (t : Nat) (st : Block)
    (hlt : t < h.bw) :
    extend_with_bit h t e st = (.error .shrink, st) := by
  unfold extend_with_bit
  rw [if_neg (by omega : ¬((t : Int) - (h.bw : Int) = 0)),
      if_pos (by omega : (t : Int) - (h.bw : Int) < 0)]

theorem extend_with_bit_grow (h : Wire) (e : Wire) (t : Nat) (st : Block)
    (hlt : h.bw < t) :
    extend_with_bit h t e st =
      (.ok ⟨st.nextId + 1, t - h.bw + h.bw, false, none⟩,
       { st with nextId := st.nextId + 2,
                 nets := st.nets ++
                   [⟨'s', some (List.replicate (t - h.bw) 0), [e],
                     [⟨st.nextId, t - h.bw, false, none⟩]⟩,
                    ⟨'c', none, [⟨st.nextId, t - h.bw, false, none⟩, h],
                     [⟨st.nextId + 1, t - h.bw + h.bw, false, none⟩]⟩] }) := by
  unfold extend_with_bit mkWireVector concatW
  rw [if_neg (by omega : ¬((t : Int) - (h.bw : Int) = 0)),
      if_neg (by omega : ¬((t : Int) - (h.bw : Int) < 0)),
      if_neg (by omega : ¬((t : Int) - (h.bw : Int) ≤ 0))]
  have ht : ((t : Int) - (h.bw : Int)).toNat = t - h.bw := by omega
  simp [ht, List.append_assoc]

theorem zero_extended_grow (h : Wire) (t : Nat) (st : Block) (hlt : h.bw < t) :
    zero_extended h t st =
      (.ok ⟨st.nextId + 2, t - h.bw + h.bw, false, none⟩,
       { st with nextId := st.nextId + 3,
                 nets := st.nets ++
                   [⟨'s', some (List.replicate (t - h.bw) 0), [⟨st.nextId, 1, false, some 0⟩],
                     [⟨st.nextId + 1, t - h.bw, false, none⟩]⟩,
                    ⟨'c', none, [⟨st.nextId + 1, t - h.bw, false, none⟩, h],
                     [⟨st.nextId + 2, t - h.bw + h.bw, false, none⟩]⟩] }) := by
  unfold zero_extended
  rw [const_zero_one st]
  exact extend_with_bit_grow h _ t _ hlt

theorem sign_extended_grow (h : Wire) (t : Nat) (st : Block) (h1 : 1 ≤ h.bw)
    (hlt : h.bw < t) :
    sign_extended h t st =
      (.ok ⟨st.nextId + 2, t - h.bw + h.bw, false, none⟩,
       { st with nextId := st.nextId + 3,
                 nets := st.nets ++
                   [⟨'s', some [h.bw - 1], [h], [⟨st.nextId, 1, false, none⟩]⟩,
                    ⟨'s', some (List.replicate (t - h.bw) 0), [⟨st.nextId, 1, false, none⟩],
                     [⟨st.nextId + 1, t - h.bw, false, none⟩]⟩,
                    ⟨'c', none, [⟨st.nextId + 1, t - h.bw, false, none⟩, h],
                     [⟨st.nextId + 2, t - h.bw + h.bw, false, none⟩]⟩] }) := by
  unfold sign_extended
  rw [getitem_neg_one h st h1]
  show extend_with_bit h t ⟨st.nextId, 1, false, none⟩
      { st with nextId := st.nextId + 1,
                nets := st.nets ++
                  [⟨'s', some [h.bw - 1], [h], [⟨st.nextId, 1, false, none⟩]⟩] } = _
  rw [extend_with_bit_grow h _ t _ hlt]
  simp [List.append_assoc]

theorem zero_extended_same (h : Wire) (st : Block) :
    zero_extended h h.bw st = (.ok h, { st with nextId := st.nextId + 1 }) := by
  unfold zero_extended
  rw [const_zero_one st]
  exact extend_with_bit_same h _ _

theorem sign_extended_same (h : Wire) (st : Block) (h1 : 1 ≤ h.bw) :
    sign_extended h h.bw st =
      (.ok h,
       { st with nextId := st.nextId + 1,
                 nets := st.nets ++
                   [⟨'s', some [h.bw - 1], [h], [⟨st.nextId, 1, false, none⟩]⟩] }) := by
  unfold sign_extended
  rw [getitem_neg_one h st h1]
  exact extend_with_bit_same h _ _

theorem zero_extended_shrink (h : Wire) (t : Nat) (st : Block) (hlt : t < h.bw) :
    zero_extended h t st = (.error .shrink, { st with nextId := st.nextId + 1 }) := by
  unfold zero_extended
  rw [const_zero_one st]
  exact extend_with_bit_shrink h _ t _ hlt

theorem sign_extended_shrink (h : Wire) (t : Nat) (st : Block) (h1 : 1 ≤ h.bw)
    (hlt : t < h.bw) :
    sign_extended h t st =
      (.error .shrink,
       { st with nextId := st.nextId + 1,
                 nets := st.nets ++
                   [⟨'s', some [h.bw - 1], [h], [⟨st.nextId, 1, false, none⟩]⟩] }) := by
  unfold sign_extended
  rw [getitem_neg_one h st h1]
  exact extend_with_bit_shrink h _ t _ hlt

theorem extended_ok (h : Wire) (t : Nat) (st : Block) (h1 : 1 ≤ h.bw)
    (hle : h.bw ≤ t) :
    ∃ r st1 pre, extended h t st = (.ok r, st1) ∧ r.bw = t ∧
      st1.nets = st.nets ++ pre := by
  unfold extended
  rcases Nat.lt_or_ge h.bw t with hlt | hge
  · cases hs : h.signed
    · rw [if_neg (by simp [hs])]
      exact ⟨⟨st.nextId + 2, t - h.bw + h.bw, false, none⟩, _,
        [⟨'s', some (List.replicate (t - h.bw) 0), [⟨st.nextId, 1, false, some 0⟩],
          [⟨st.nextId + 1, t - h.bw, false, none⟩]⟩,
         ⟨'c', none, [⟨st.nextId + 1, t - h.bw, false, none⟩, h],
          [⟨st.nextId + 2, t - h.bw + h.bw, false, none⟩]⟩],
        zero_extended_grow h t st hlt, by show t - h.bw + h.bw = t; omega, rfl⟩
    · rw [if_pos (by simp [hs])]
      exact ⟨⟨st.nextId + 2, t - h.bw + h.bw, false, none⟩, _,
        [⟨'s', some [h.bw - 1], [h], [⟨st.nextId, 1, false, none⟩]⟩,
         ⟨'s', some (List.replicate (t - h.bw) 0), [⟨st.nextId, 1, false, none⟩],
          [⟨st.nextId + 1, t - h.bw, false, none⟩]⟩,
         ⟨'c', none, [⟨st.nextId + 1, t - h.bw, false, none⟩, h],
          [⟨st.nextId + 2, t - h.bw + h.bw, false, none⟩]⟩],
        sign_extended_grow h t st h1 hlt, by show t - h.bw + h.bw = t; omega, rfl⟩
  · have heq : t = h.bw := by omega
    subst heq
    cases hs : h.signed
    · rw [if_neg (by simp [hs])]
      exact ⟨h, _, [], zero_extended_same h st, rfl, by simp⟩
    · rw [if_pos (by simp [hs])]
      exact ⟨h, _, [⟨'s', some [h.bw - 1], [h], [⟨st.nextId, 1, false, none⟩]⟩],
        sign_extended_same h st h1, rfl, rfl⟩

theorem mkWireVector_pos (k : Nat) (sg : Bool) (st : Block) (hk : 1 ≤ k) :
    mkWireVector (k : Int) sg st =
      (.ok ⟨st.nextId, k, sg, none⟩, { st with nextId := st.nextId + 1 }) := by
  unfold mkWireVector
  rw [if_neg (by omega : ¬((k : Int) ≤ 0))]
  simp

theorem resLen_pos (op : Char) (w : Nat) (hw : 1 ≤ w) : 1 ≤ resLen op w := by
  unfold resLen
  repeat' split
  all_goals omega

theorem logicopEmit_ok (a2 b2 : Wire) (op : Char) (st : Block) (h2 : 1 ≤ a2.bw) :
    logicopEmit a2 b2 op st =
      (.ok ⟨st.nextId, resLen op a2.bw, false, none⟩,
       { st with nextId := st.nextId + 1,
                 nets := st.nets ++
                   [⟨op, none, [a2, b2], [⟨st.nextId, resLen op a2.bw, false, none⟩]⟩] }) := by
  unfold logicopEmit
  rw [mkWireVector_pos _ _ _ (resLen_pos op a2.bw h2)]

theorem logicop_ok (a b : Wire) (op : Char) (st : Block) (ha : 1 ≤ a.bw)
    (hb : 1 ≤ b.bw) :
    ∃ s st1 a2 b2 pre,
      logicop a b op st = (.ok s, st1) ∧
      a2.bw = max a.bw b.bw ∧ b2.bw = max a.bw b.bw ∧
      st1.nets = st.nets ++ pre ++ [⟨op, none, [a2, b2], [s]⟩] ∧
      s.bw = resLen op (max a.bw b.bw) := by
  unfold logicop
  rcases Nat.lt_trichotomy a.bw b.bw with hab | hab | hab
  · rw [if_pos hab]
    obtain ⟨a2, stx, pre, heq, hbw, hnets⟩ := extended_ok a b.bw st ha (le_of_lt hab)
    rw [heq]
    have hmax : max a.bw b.bw = b.bw := by omega
    refine ⟨_, _, a2, b, pre, logicopEmit_ok a2 b op stx (by omega), by omega, by omega,
      ?_, by rw [hmax, hbw]⟩
    simp [hnets, hbw, hmax, List.append_assoc]
  · rw [if_neg (by omega), if_neg (by omega)]
    have hmax : max a.bw b.bw = a.bw := by omega
    refine ⟨_, _, a, b, [], logicopEmit_ok a b op st ha, by omega, by omega, ?_, by rw [hmax]⟩
    simp
  · rw [if_neg (by omega), if_pos hab]
    obtain ⟨b2, stx, pre, heq, hbw, hnets⟩ := extended_ok b a.bw st hb (le_of_lt hab)
    rw [heq]
    have hmax : max a.bw b.bw = a.bw := by omega
    refine ⟨_, _, a, b2, pre, logicopEmit_ok a b2 op stx ha, by omega, by omega,
      ?_, by rw [hmax]⟩
    simp [hnets, List.append_assoc]

/-- C10: using any bit-vector handle in a truth-value context always raises
the conversion error and leaves the block untouched, so no handle is ever
truthy or falsy at construction time. -/
theorem C10_bool_always_raises (h : Wire) (st : Block) :
    wvBool h st = (.error .boolConversion, st) := rfl

/-- C2: staging a register's next value with no value staged before emits,
outside a conditional scope, exactly one clocked-update net whose single
input is the staged handle and whose single output is the register handle
(with no resolver call); inside a conditional scope it emits no net and
makes exactly one call to the conditional resolver's registration entry
point with the register handle and the staged handle. -/
theorem C2_register_stage_commit (r rhs : Wire) (st : Block)
    (hnone : st.regIn.lookup r.wid = none) :
    registerNextSet false r rhs st =
      (.ok (), { st with regIn := (r.wid, rhs) :: st.regIn,
                         nets := st.nets ++ [⟨'r', none, [rhs], [r]⟩] }) ∧
    registerNextSet true r rhs st =
      (.ok (), { st with condCalls := st.condCalls ++ [(r, rhs)] }) := by
  unfold registerNextSet
  rw [hnone]
  exact ⟨rfl, rfl⟩

/-- C2 witness: a concrete register and staged handle, both stagings checked
on an explicit block. -/
theorem C2_register_stage_commit_witness :
    registerNextSet false ⟨0, 4, false, none⟩ ⟨1, 4, false, none⟩ ⟨2, [], [], []⟩ =
      (.ok (), ⟨2, [⟨'r', none, [⟨1, 4, false, none⟩], [⟨0, 4, false, none⟩]⟩],
                [(0, ⟨1, 4, false, none⟩)], []⟩) ∧
    registerNextSet true ⟨0, 4, false, none⟩ ⟨1, 4, false, none⟩ ⟨2, [], [], []⟩ =
      (.ok (), ⟨2, [], [], [(⟨0, 4, false, none⟩, ⟨1, 4, false, none⟩)]⟩) :=
  C2_register_stage_commit ⟨0, 4, false, none⟩ ⟨1, 4, false, none⟩ ⟨2, [], [], []⟩ rfl

/-- C3 counterexample: a register staged once inside a conditional scope can
be staged a second time without any error: the conditional path never
records the staged value, so the re-stage check does not fire, refuting the
claim that a second staging raises regardless of conditional scope. -/
theorem C3_restage_conditional_counterexample :
    (registerNextSet true ⟨0, 4, false, none⟩ ⟨1, 4, false, none⟩ ⟨2, [], [], []⟩ =
      (.ok (), ⟨2, [], [], [(⟨0, 4, false, none⟩, ⟨1, 4, false, none⟩)]⟩)) ∧
    (registerNextSet true ⟨0, 4, false, none⟩ ⟨2, 4, false, none⟩
        ⟨2, [], [], [(⟨0, 4, false, none⟩, ⟨1, 4, false, none⟩)]⟩ =
      (.ok (), ⟨2, [], [],
        [(⟨0, 4, false, none⟩, ⟨1, 4, false, none⟩),
         (⟨0, 4, false, none⟩, ⟨2, 4, false, none⟩)]⟩)) :=
  ⟨rfl, rfl⟩

/-- C3 (amended): after a first staging that happened outside a conditional
scope (which records the staged handle as `reg_in`), any second staging of
the same register raises the re-stage error, inside or outside a conditional
scope; a first staging inside a conditional scope records nothing in this
core and therefore does not make a later staging raise. -/
theorem C3_restage_after_unconditional (r rhs1 rhs2 : Wire) (cond2 : Bool)
    (st st1 : Block) (h1 : registerNextSet false r rhs1 st = (.ok (), st1)) :
    registerNextSet cond2 r rhs2 st1 = (.error .reStage, st1) := by
  unfold registerNextSet at h1 ⊢
  rcases hl : st.regIn.lookup r.wid with _ | w
  · rw [hl] at h1
    simp only [Bool.not_false, if_pos] at h1
    injection h1 with ha hb
    subst hb
    simp [List.lookup]
  · rw [hl] at h1
    injection h1 with ha hb
    exact absurd ha (by simp)

/-- C3 witness: a concrete unconditional staging followed by a second
staging inside a conditional scope, which raises the re-stage error. -/
theorem C3_restage_after_unconditional_witness :
    registerNextSet true ⟨0, 4, false, none⟩ ⟨3, 4, false, none⟩
        ⟨2, [⟨'r', none, [⟨1, 4, false, none⟩], [⟨0, 4, false, none⟩]⟩],
         [(0, ⟨1, 4, false, none⟩)], []⟩ =
      (.error .reStage,
       ⟨2, [⟨'r', none, [⟨1, 4, false, none⟩], [⟨0, 4, false, none⟩]⟩],
        [(0, ⟨1, 4, false, none⟩)], []⟩) :=
  C3_restage_after_unconditional ⟨0, 4, false, none⟩ ⟨1, 4, false, none⟩
    ⟨3, 4, false, none⟩ true ⟨2, [], [], []⟩ _ rfl

/-- C7 counterexample: `Const(-1, bitwidth=-1)` violates both the claimed
first check (width must be a positive integer) and the value check, yet the
error raised is the negative-value error and not either width error: the
value check runs first, refuting the claimed validation order. -/
theorem C7_check_order_counterexample :
    constInit (.int (-1)) (some (-1)) false Block.empty =
      (.error .constNegative, Block.empty) ∧
    PyErr.constNegative ≠ PyErr.constNegativeBitwidth ∧
    PyErr.constNegative ≠ PyErr.nonPositiveBitwidth :=
  ⟨rfl, by decide, by decide⟩

/-- C7 (amended): integer `Const` construction validates in this order:
value non-negative first, then width non-negative, then value fits in the
declared width (`value >> width == 0`), and only last, inside the base
handle constructor, that the width is positive; the first violated check in
that order decides the error raised. -/
theorem C7_const_validation_order (v bw : Int) (st : Block) :
    (v < 0 → constInit (.int v) (some bw) false st = (.error .constNegative, st)) ∧
    (0 ≤ v → bw < 0 →
      constInit (.int v) (some bw) false st = (.error .constNegativeBitwidth, st)) ∧
    (0 ≤ v → 0 ≤ bw → v.toNat >>> bw.toNat ≠ 0 →
      constInit (.int v) (some bw) false st = (.error .constOverflow, st)) ∧
    (0 ≤ v → bw = 0 → v.toNat >>> bw.toNat = 0 →
      constInit (.int v) (some bw) false st = (.error .nonPositiveBitwidth, st)) := by
  refine ⟨?_, ?_, ?_, ?_⟩
  · intro hv
    show constCore v bw false st = _
    unfold constCore
    rw [if_pos hv]
  · intro hv hbw
    show constCore v bw false st = _
    unfold constCore
    rw [if_neg (by omega), if_pos hbw]
  · intro hv hbw hfit
    show constCore v bw false st = _
    unfold constCore
    rw [if_neg (by omega), if_neg (by omega), if_pos hfit]
  · intro hv hbw hfit
    subst hbw
    show constCore v 0 false st = _
    unfold constCore mkWireVector
    rw [if_neg (by omega), if_neg (by omega), if_neg (by simpa using hfit),
        if_pos (by omega : (0 : Int) ≤ 0)]

/-- C7 witness: a negative value with a positive width raises the
negative-value error. -/
theorem C7_const_validation_order_witness :
    constInit (.int (-5)) (some 3) false Block.empty =
      (.error .constNegative, Block.empty) :=
  (C7_const_validation_order (-5) 3 Block.empty).1 (by norm_num)

/-- C8 counterexample: extending a signed-role 4-bit handle to its own width
4 returns the same handle but emits one select net (the read-out of the most
significant bit), refuting the claim that no node is emitted. -/
theorem C8_signed_idempotence_counterexample :
    extended ⟨0, 4, true, none⟩ 4 ⟨1, [], [], []⟩ =
      (.ok ⟨0, 4, true, none⟩,
       ⟨2, [⟨'s', some [3], [⟨0, 4, true, none⟩], [⟨1, 1, false, none⟩]⟩], [], []⟩) ∧
    [⟨'s', some [3], [⟨0, 4, true, none⟩], [⟨1, 1, false, none⟩]⟩] ≠
      ([] : List LogicNet) :=
  ⟨rfl, by decide⟩

/-- C8 (amended): extending a handle to its own current width returns the
very same handle and emits no extension or concatenation net; for
unsigned-role handles no net at all is emitted, while for signed-role
handles the select net reading the most significant bit has already been
emitted by the time the width comparison runs. -/
theorem C8_extend_same_width (h : Wire) (st : Block) (h1 : 1 ≤ h.bw) :
    ∃ st1, extended h h.bw st = (.ok h, st1) ∧
      (h.signed = false → st1.nets = st.nets) ∧
      (h.signed = true → st1.nets = st.nets ++
        [⟨'s', some [h.bw - 1], [h], [⟨st.nextId, 1, false, none⟩]⟩]) := by
  unfold extended
  cases hs : h.signed
  · rw [if_neg (by simp)]
    exact ⟨_, zero_extended_same h st, fun _ => rfl, fun hc => absurd hc (by simp)⟩
  · rw [if_pos rfl]
    exact ⟨_, sign_extended_same h st h1, fun hc => absurd hc (by simp), fun _ => rfl⟩

/-- C8 witness: an unsigned 4-bit handle extended to width 4 comes back
unchanged with no net emitted. -/
theorem C8_extend_same_width_witness :
    ∃ st1, extended ⟨0, 4, false, none⟩ 4 ⟨1, [], [], []⟩ =
        (.ok ⟨0, 4, false, none⟩, st1) ∧
      ((⟨0, 4, false, none⟩ : Wire).signed = false →
        st1.nets = (⟨1, [], [], []⟩ : Block).nets) ∧
      ((⟨0, 4, false, none⟩ : Wire).signed = true →
        st1.nets = (⟨1, [], [], []⟩ : Block).nets ++
          [⟨'s', some [3], [⟨0, 4, false, none⟩], [⟨1, 1, false, none⟩]⟩]) :=
  C8_extend_same_width ⟨0, 4, false, none⟩ ⟨1, [], [], []⟩ (by decide)

/-- C9 counterexample: shrinking a signed-role 4-bit handle to width 2
raises the shrink error, but one select net (the most-significant-bit
read-out) has already been emitted, refuting the claim that no node is
emitted. -/
theorem C9_signed_shrink_counterexample :
    extended ⟨0, 4, true, none⟩ 2 ⟨1, [], [], []⟩ =
      (.error .shrink,
       ⟨2, [⟨'s', some [3], [⟨0, 4, true, none⟩], [⟨1, 1, false, none⟩]⟩], [], []⟩) ∧
    [⟨'s', some [3], [⟨0, 4, true, none⟩], [⟨1, 1, false, none⟩]⟩] ≠
      ([] : List LogicNet) :=
  ⟨rfl, by decide⟩

/-- C9 (amended): extending a handle to a strictly smaller width always
raises the shrink error and emits no extension or concatenation net; for
unsigned-role handles no net at all is emitted, while for signed-role
handles the select net reading the most significant bit has already been
emitted before the error is raised. -/
theorem C9_extend_shrink_error (h : Wire) (t : Nat) (st : Block) (h1 : 1 ≤ h.bw)
    (hlt : t < h.bw) :
    ∃ st1, extended h t st = (.error .shrink, st1) ∧
      (h.signed = false → st1.nets = st.nets) ∧
      (h.signed = true → st1.nets = st.nets ++
        [⟨'s', some [h.bw - 1], [h], [⟨st.nextId, 1, false, none⟩]⟩]) := by
  unfold extended
  cases hs : h.signed
  · rw [if_neg (by simp)]
    exact ⟨_, zero_extended_shrink h t st hlt, fun _ => rfl, fun hc => absurd hc (by simp)⟩
  · rw [if_pos rfl]
    exact ⟨_, sign_extended_shrink h t st h1 hlt, fun hc => absurd hc (by simp), fun _ => rfl⟩

/-- C9 witness: an unsigned 4-bit handle asked to extend to width 2 raises
the shrink error with no net emitted. -/
theorem C9_extend_shrink_error_witness :
    ∃ st1, extended ⟨0, 4, false, none⟩ 2 ⟨1, [], [], []⟩ = (.error .shrink, st1) ∧
      ((⟨0, 4, false, none⟩ : Wire).signed = false →
        st1.nets = (⟨1, [], [], []⟩ : Block).nets) ∧
      ((⟨0, 4, false, none⟩ : Wire).signed = true →
        st1.nets = (⟨1, [], [], []⟩ : Block).nets ++
          [⟨'s', some [3], [⟨0, 4, false, none⟩], [⟨1, 1, false, none⟩]⟩]) :=
  C9_extend_shrink_error ⟨0, 4, false, none⟩ 2 ⟨1, [], [], []⟩ (by decide) (by decide)

/-- C5 counterexample: on an 8-bit handle the slice `[0:0]` selects zero bit
positions, and instead of returning a fresh handle of width 0 with a select
net, the call raises the non-positive-bitwidth construction error and emits
nothing, refuting the claim for empty selections. -/
theorem C5_empty_slice_counterexample :
    pySelect (List.range 8) (.slice (some 0) (some 0) none) = .ok [] ∧
    getitem ⟨0, 8, false, none⟩ (.slice (some 0) (some 0) none) ⟨1, [], [], []⟩ =
      (.error .nonPositiveBitwidth, ⟨1, [], [], []⟩) :=
  ⟨rfl, rfl⟩

/-- C5 (amended): indexing a handle of width w selects exactly the bit
positions the same index expression selects from the flat Python list
`[0, .., w-1]` (bit 0 least significant, negative indices from the top, full
slice semantics); whenever that selection is non-empty, one select net
carrying the index tuple is emitted with the source handle as sole input and
a fresh handle of width the number of selected indices is returned; an empty
selection instead raises the non-positive-bitwidth error from handle
allocation and emits nothing. -/
theorem C5_getitem_select (h : Wire) (idx : PyIndex) (sel : List Nat) (st : Block)
    (hsel : pySelect (List.range h.bw) idx = .ok sel) (hne : sel ≠ []) :
    getitem h idx st =
      (.ok ⟨st.nextId, sel.length, false, none⟩,
       { st with nextId := st.nextId + 1,
                 nets := st.nets ++
                   [⟨'s', some sel, [h], [⟨st.nextId, sel.length, false, none⟩]⟩] }) := by
  have hlen : 1 ≤ sel.length := by
    cases sel with
    | nil => exact absurd rfl hne
    | cons x xs => simp
  unfold getitem
  simp only [hsel]
  rw [mkWireVector_pos sel.length false st hlen]

/-- C5 witness: on an 8-bit handle, `h[-4:]` selects positions 4,5,6,7 and
`h[0:2]` selects positions 0,1; each emits one select net with that tuple
and returns a handle of the matching width. -/
theorem C5_getitem_select_witness :
    getitem ⟨0, 8, false, none⟩ (.slice (some (-4)) none none) ⟨1, [], [], []⟩ =
      (.ok ⟨1, 4, false, none⟩,
       ⟨2, [⟨'s', some [4, 5, 6, 7], [⟨0, 8, false, none⟩], [⟨1, 4, false, none⟩]⟩],
        [], []⟩) ∧
    getitem ⟨0, 8, false, none⟩ (.slice (some 0) (some 2) none) ⟨1, [], [], []⟩ =
      (.ok ⟨1, 2, false, none⟩,
       ⟨2, [⟨'s', some [0, 1], [⟨0, 8, false, none⟩], [⟨1, 2, false, none⟩]⟩],
        [], []⟩) :=
  ⟨C5_getitem_select ⟨0, 8, false, none⟩ (.slice (some (-4)) none none)
      [4, 5, 6, 7] ⟨1, [], [], []⟩ rfl (by decide),
   C5_getitem_select ⟨0, 8, false, none⟩ (.slice (some 0) (some 2) none)
      [0, 1] ⟨1, [], [], []⟩ rfl (by decide)⟩

/-- C6: integer `Const` construction with no explicit width succeeds for
every non-negative value, stores the exact value, and infers the minimal
bit-length as the width (the width w satisfies v < 2^w, is 1 when v = 0 and
satisfies 2^(w-1) ≤ v when v ≠ 0); the literal string 3'b101 parses to a
`Const` of width 3 and stored value 5, while the literal string 2'b101
raises the overflow error because 5 does not fit in 2 bits. -/
theorem C6_const_construction (v : Nat) (st : Block) :
    (∃ w st1, constInit (.int (v : Int)) none false st = (.ok w, st1) ∧
      w.cval = some v ∧ v < 2 ^ w.bw ∧ (v = 0 → w.bw = 1) ∧
      (v ≠ 0 → 2 ^ (w.bw - 1) ≤ v)) ∧
    constInit (.str (String.mk ['3', quoteChar, 'b', '1', '0', '1'])) none false
        Block.empty =
      (.ok ⟨0, 3, false, some 5⟩, ⟨1, [], [], []⟩) ∧
    constInit (.str (String.mk ['2', quoteChar, 'b', '1', '0', '1'])) none false
        Block.empty =
      (.error .constOverflow, Block.empty) := by
  refine ⟨?_, rfl, rfl⟩
  have hvlt : v < 2 ^ pyBinLenNat v := by
    unfold pyBinLenNat
    split
    · omega
    · exact Nat.lt_size_self v
  have hpos : 1 ≤ pyBinLenNat v := by
    unfold pyBinLenNat
    split
    · omega
    · exact Nat.size_pos.mpr (by omega)
  have hfit : v >>> pyBinLenNat v = 0 := by
    rw [Nat.shiftRight_eq_div_pow]
    exact Nat.div_eq_of_lt hvlt
  refine ⟨⟨st.nextId, pyBinLenNat v, false, some v⟩, { st with nextId := st.nextId + 1 },
    ?_, rfl, hvlt, ?_, ?_⟩
  · show constCore (v : Int) (pyBinLen (v : Int)) false st = _
    have hpb : pyBinLen (v : Int) = (pyBinLenNat v : Int) := by
      unfold pyBinLen
      rw [if_neg (by omega)]
      simp
    rw [hpb]
    unfold constCore
    rw [if_neg (by omega), if_neg (by omega),
        if_neg (by simp [hfit]), mkWireVector_pos _ _ _ hpos]
    rfl
  · intro hv0
    subst hv0
    rfl
  · intro hv0
    show 2 ^ (pyBinLenNat v - 1) ≤ v
    unfold pyBinLenNat
    rw [if_neg hv0]
    exact Nat.lt_size.mp (by have := Nat.size_pos.mpr (Nat.pos_of_ne_zero hv0); omega)

/-- C6 witness: `Const(5)` infers width 3 and stores value 5. -/
theorem C6_const_construction_witness :
    (∃ w st1, constInit (.int ((5 : Nat) : Int)) none false Block.empty = (.ok w, st1) ∧
      w.cval = some 5 ∧ 5 < 2 ^ w.bw ∧ ((5 : Nat) = 0 → w.bw = 1) ∧
      ((5 : Nat) ≠ 0 → 2 ^ (w.bw - 1) ≤ 5)) ∧
    constInit (.str (String.mk ['3', quoteChar, 'b', '1', '0', '1'])) none false
        Block.empty =
      (.ok ⟨0, 3, false, some 5⟩, ⟨1, [], [], []⟩) ∧
    constInit (.str (String.mk ['2', quoteChar, 'b', '1', '0', '1'])) none false
        Block.empty =
      (.error .constOverflow, Block.empty) :=
  C6_const_construction 5 Block.empty

/-- Dispatch of the default extension rule for an unsigned-role handle. -/
theorem extended_unsigned (h : Wire) (t : Nat) (st : Block) (hs : h.signed = false) :
    extended h t st = zero_extended h t st := by
  unfold extended
  rw [if_neg (by simp [hs])]

/-- Dispatch of the default extension rule for a signed-role handle. -/
theorem extended_signed (h : Wire) (t : Nat) (st : Block) (hs : h.signed = true) :
    extended h t st = sign_extended h t st := by
  unfold extended
  rw [if_pos hs]

/-- C4: extending a handle of width w to a larger width t materializes the
extension bits through exactly one select net whose single input is the
extension-bit source and whose output block has width t - w, and then
concatenates that block as the more-significant part of the width-t result;
the extension-bit source is a fresh one-bit constant-0 handle for
unsigned-role handles and the handle's own most significant bit
(`handle[width - 1]`, itself read out through its select net) for
signed-role handles — the sole behavioral difference between the variants;
concretely, a 4-bit handle holding 0b1010 extends to 8 bits with value
0b00001010 = 10 under the unsigned rule and 0b11111010 = 250 under the
signed rule. -/
theorem C4_extension_bit_source :
    (∀ (h : Wire) (t : Nat) (st : Block), h.signed = false → h.bw < t →
      ∃ res st1, extended h t st = (.ok res, st1) ∧ res.bw = t ∧
        st1.nets = st.nets ++
          [⟨'s', some (List.replicate (t - h.bw) 0), [⟨st.nextId, 1, false, some 0⟩],
            [⟨st.nextId + 1, t - h.bw, false, none⟩]⟩,
           ⟨'c', none, [⟨st.nextId + 1, t - h.bw, false, none⟩, h], [res]⟩]) ∧
    (∀ (h : Wire) (t : Nat) (st : Block), h.signed = true → 1 ≤ h.bw → h.bw < t →
      ∃ res st1, extended h t st = (.ok res, st1) ∧ res.bw = t ∧
        st1.nets = st.nets ++
          [⟨'s', some [h.bw - 1], [h], [⟨st.nextId, 1, false, none⟩]⟩,
           ⟨'s', some (List.replicate (t - h.bw) 0), [⟨st.nextId, 1, false, none⟩],
            [⟨st.nextId + 1, t - h.bw, false, none⟩]⟩,
           ⟨'c', none, [⟨st.nextId + 1, t - h.bw, false, none⟩, h], [res]⟩]) ∧
    (∃ res st1, extended ⟨0, 4, false, none⟩ 8 ⟨1, [], [], []⟩ = (.ok res, st1) ∧
      evalNets st1.nets (updEnv (fun _ => 0) 0 10) res.wid = 10) ∧
    (∃ res st1, extended ⟨0, 4, true, none⟩ 8 ⟨1, [], [], []⟩ = (.ok res, st1) ∧
      evalNets st1.nets (updEnv (fun _ => 0) 0 10) res.wid = 250) := by
  refine ⟨?_, ?_, ⟨⟨3, 8, false, none⟩, _, rfl, rfl⟩, ⟨⟨3, 8, false, none⟩, _, rfl, rfl⟩⟩
  · intro h t st hs hlt
    rw [extended_unsigned h t st hs, zero_extended_grow h t st hlt]
    exact ⟨_, _, rfl, by show t - h.bw + h.bw = t; omega, rfl⟩
  · intro h t st hs h1 hlt
    rw [extended_signed h t st hs, sign_extended_grow h t st h1 hlt]
    exact ⟨_, _, rfl, by show t - h.bw + h.bw = t; omega, rfl⟩

/-- C4 witness: the two quantified parts applied to a concrete 4-bit handle
extended to 8 bits, unsigned and signed. -/
theorem C4_extension_bit_source_witness :
    (∃ res st1, extended ⟨0, 4, false, none⟩ 8 ⟨1, [], [], []⟩ = (.ok res, st1) ∧
      res.bw = 8 ∧
      st1.nets =
        [⟨'s', some [0, 0, 0, 0], [⟨1, 1, false, some 0⟩], [⟨2, 4, false, none⟩]⟩,
         ⟨'c', none, [⟨2, 4, false, none⟩, ⟨0, 4, false, none⟩], [res]⟩]) ∧
    (∃ res st1, extended ⟨0, 4, true, none⟩ 8 ⟨1, [], [], []⟩ = (.ok res, st1) ∧
      res.bw = 8 ∧
      st1.nets =
        [⟨'s', some [3], [⟨0, 4, true, none⟩], [⟨1, 1, false, none⟩]⟩,
         ⟨'s', some [0, 0, 0, 0], [⟨1, 1, false, none⟩], [⟨2, 4, false, none⟩]⟩,
         ⟨'c', none, [⟨2, 4, false, none⟩, ⟨0, 4, true, none⟩], [res]⟩]) :=
  ⟨C4_extension_bit_source.1 ⟨0, 4, false, none⟩ 8 ⟨1, [], [], []⟩ rfl (by decide),
   C4_extension_bit_source.2.1 ⟨0, 4, true, none⟩ 8 ⟨1, [], [], []⟩ rfl (by decide)
     (by decide)⟩

/-- C1: a binary operation emitted through logicop on two handles of widths
wa and wb first extends the shorter operand, by its own default extension
rule, to w = max wa wb (both inputs of the emitted net then have width w)
and allocates a fresh result handle whose width is exactly w for bitwise
and, or, xor, w + 1 for add and subtract, 2 * w for multiply (twice the
equalized width, not wa + wb), and 1 for less-than, greater-than and
equal. -/
theorem C1_logicop_result_width (a b : Wire) (op : Char) (st : Block)
    (ha : 1 ≤ a.bw) (hb : 1 ≤ b.bw)
    (hop : op ∈ ['&', '|', '^', '+', '-', '*', '<', '>', '=']) :
    ∃ s st1 a2 b2 pre,
      logicop a b op st = (.ok s, st1) ∧
      a2.bw = max a.bw b.bw ∧ b2.bw = max a.bw b.bw ∧
      st1.nets = st.nets ++ pre ++ [⟨op, none, [a2, b2], [s]⟩] ∧
      s.bw = (if op = '&' ∨ op = '|' ∨ op = '^' then max a.bw b.bw
              else if op = '+' ∨ op = '-' then max a.bw b.bw + 1
              else if op = '*' then 2 * max a.bw b.bw
              else 1) := by
  obtain ⟨s, st1, a2, b2, pre, heq, h2, h3, h4, h5⟩ := logicop_ok a b op st ha hb
  refine ⟨s, st1, a2, b2, pre, heq, h2, h3, h4, ?_⟩
  rw [h5]
  unfold resLen
  fin_cases hop <;> simp [Nat.mul_comm]

/-- C1 witness: a 4-bit unsigned handle multiplied with a 2-bit signed
handle: the signed operand is equalized to width 4 and the product handle
has width 8 = 2 * 4. -/
theorem C1_logicop_result_width_witness :
    ∃ s st1 a2 b2 pre,
      logicop ⟨0, 4, false, none⟩ ⟨1, 2, true, none⟩ '*' ⟨2, [], [], []⟩ =
        (.ok s, st1) ∧
      a2.bw = 4 ∧ b2.bw = 4 ∧
      st1.nets = pre ++ [⟨'*', none, [a2, b2], [s]⟩] ∧
      s.bw = 8 :=
  C1_logicop_result_width ⟨0, 4, false, none⟩ ⟨1, 2, true, none⟩ '*' ⟨2, [], [], []⟩
    (by decide) (by decide) (by decide)
